import Mathlib

/-!
Verification of the HTTP forwarding proxy (src/httpProxy.go).

Byte strings (Go `string` / `[]byte`) are modelled as `List Nat`; all data
relevant to the properties below is ASCII, where the byte-wise operations here
agree with the rune-wise Go library functions used by the source.  A read
stream is modelled as the list of bytes the peer delivers followed by a
terminal event (clean end-of-stream or read error); a destination writer is
modelled by the list of outcomes of its successive Write calls, an exhausted
outcome list meaning the writer accepts everything from then on.
-/

set_option maxRecDepth 20000

namespace HttpProxy

/-- Bytes of an ASCII string literal. -/
def bytesOf (s : String) : List Nat := s.data.map (fun c => c.toNat)

/-- CR LF. -/
def crlf : List Nat := [13, 10]

/-- CR LF CR LF, the four-byte header terminator. -/
def crlfcrlf : List Nat := [13, 10, 13, 10]

/-- The "HTTP/" marker searched for by parseHTTPHeaders. -/
def httpMarker : List Nat := bytesOf "HTTP/"

/-- The 11-byte "Connection:" marker tested by bytes.HasPrefix. -/
def connMarker : List Nat := bytesOf "Connection:"

/-- The fixed synthetic header line injected into every response. -/
def fooBar : List Nat := bytesOf "Foo: Bar"

/-- Whether `pat` is a prefix of the second list (Go bytes.HasPrefix). -/
def startsWith : List Nat → List Nat → Bool
  | [], _ => true
  | _ :: _, [] => false
  | p :: ps, b :: bs => p == b && startsWith ps bs

/-- Whether `pat` occurs as a contiguous run (Go bytes.Contains). -/
def containsSeq (pat : List Nat) : List Nat → Bool
  | [] => pat.isEmpty
  | b :: rest => startsWith pat (b :: rest) || containsSeq pat rest

/-- Byte index of the first occurrence of `pat` (Go strings.Index). -/
def indexOfSeq (pat : List Nat) : List Nat → Option Nat
  | [] => if pat.isEmpty then some 0 else none
  | b :: rest =>
      if startsWith pat (b :: rest) then some 0
      else (indexOfSeq pat rest).map (fun i => i + 1)

/-- Split at the first occurrence of `pat`: Go bytes.SplitN with n = 2, where
`some (pre, post)` is the two-part result and `none` the one-part result
(no occurrence). -/
def splitFirst (pat : List Nat) : List Nat → Option (List Nat × List Nat)
  | [] => none
  | b :: rest =>
      if startsWith pat (b :: rest) then some ([], (b :: rest).drop pat.length)
      else
        match splitFirst pat rest with
        | some (pre, post) => some (b :: pre, post)
        | none => none

/-- Prepend a byte to the first segment of a split result. -/
def consHead (b : Nat) : List (List Nat) → List (List Nat)
  | [] => [[b]]
  | s :: ss => (b :: s) :: ss

/-- Go bytes.Split with separator "\r\n", specialised to the two-byte
separator so that the definition is structurally recursive. -/
def splitCRLF : List Nat → List (List Nat)
  | [] => [[]]
  | [b] => [[b]]
  | b :: c :: rest =>
      if b == 13 && c == 10 then [] :: splitCRLF rest
      else consHead b (splitCRLF (c :: rest))

/-- Go bytes.Join with separator "\r\n". -/
def joinCRLF : List (List Nat) → List Nat
  | [] => []
  | [x] => x
  | x :: y :: ys => x ++ 13 :: 10 :: joinCRLF (y :: ys)

/-- ASCII bytes treated as white space by Go unicode.IsSpace; on the ASCII
data handled here the byte-wise trim below agrees with strings.TrimSpace. -/
def isSpaceByte (b : Nat) : Bool :=
  b == 32 || b == 9 || b == 10 || b == 11 || b == 12 || b == 13

/-- Go strings.TrimSpace, byte-wise on ASCII data. -/
def goTrimSpace (l : List Nat) : List Nat :=
  ((l.dropWhile isSpaceByte).reverse.dropWhile isSpaceByte).reverse

/-- Go strings.ToLower on one ASCII byte.  (Go also lower-cases non-ASCII
code points; those can never make the ASCII-literal comparisons used by
shouldKeepAlive succeed differently on the inputs the proxy extracts.) -/
def toLowerByte (b : Nat) : Nat := if 65 ≤ b && b ≤ 90 then b + 32 else b

/-- Go strings.ToLower, byte-wise on ASCII data. -/
def goToLower (l : List Nat) : List Nat := l.map toLowerByte

/-- Go parseHTTPHeaders (src/httpProxy.go:139-151).  Returns `none` when the
Go code panics: a header line that starts with the 11-byte marker
"Connection:" but is shorter than 12 bytes makes the slice
`line[len("Connection: "):]` fault with a slice-bounds-out-of-range panic. -/
def parseHTTPHeaders (request : List Nat) : Option (List Nat × List Nat) :=
  let version : List Nat :=
    match indexOfSeq httpMarker request with
    | some idx =>
        if idx + 8 < request.length then (request.drop (idx + 5)).take 3 else []
    | none => []
  match (splitCRLF request).find? (fun line => startsWith connMarker line) with
  | none => some (version, [])
  | some line =>
      if 12 ≤ line.length then some (version, goTrimSpace (line.drop 12))
      else none

/-- Go shouldKeepAlive (src/httpProxy.go:154-167). -/
def shouldKeepAlive (version connHeader : List Nat) : Bool :=
  let ver := goTrimSpace version
  let ch := goToLower (goTrimSpace connHeader)
  if ver == bytesOf "1.0" && ch == bytesOf "keep-alive" then true
  else if ver == bytesOf "1.1" && !(ch == bytesOf "close") then true
  else false

/-- Terminal event of a read stream: clean end-of-stream (io.EOF) or any
other read error. -/
inductive Term where
  | eof
  | rerr
  deriving DecidableEq, Repr

/-- Outcome of one destination Write call: `ok k` accepts up to `k` bytes
without error (fewer than requested is a short write), `err` is a write
error, modelled as delivering nothing.  An exhausted outcome list means every
further call accepts its whole argument. -/
inductive WOut where
  | ok (k : Nat)
  | err
  deriving DecidableEq, Repr

/-- One Write call whose byte count result is discarded by the caller, as in
`_, writeErr := destConn.Write(buf[:n])` (src/httpProxy.go:123) and the two
client writes of the response relay (src/httpProxy.go:204,210): a short
write silently truncates. -/
def writeOnce (data : List Nat) : List WOut → List Nat × List WOut × Bool
  | [] => (data, [], true)
  | WOut.err :: rest => ([], rest, false)
  | WOut.ok k :: rest => (data.take k, rest, true)

/-- The write path of Go copyData (src/httpProxy.go:237-250): one Write, then
re-writing `buf[offset:n]` until the whole chunk is flushed or a write error
occurs.  Returns the bytes delivered, the remaining outcomes, and success. -/
def writeRetry (data : List Nat) : List WOut → List Nat × List WOut × Bool
  | [] => (data, [], true)
  | WOut.err :: rest => ([], rest, false)
  | WOut.ok k :: rest =>
      if data.length ≤ k then (data, rest, true)
      else
        match writeRetry (data.drop k) rest with
        | (d, w, s) => (data.take k ++ d, w, s)

/-- The error results of Go copyData. -/
inductive CopyErr where
  | writeErr
  | readErr
  deriving DecidableEq, Repr

/-- Go copyData (src/httpProxy.go:232-260) over a source delivering the given
chunks (one per Read call; the 32768-byte buffer only bounds their size) and
then the terminal event.  Returns the bytes delivered to dst and the error
result (`none` on clean source end-of-stream). -/
def copyData : List (List Nat) → Term → List WOut → List Nat × Option CopyErr
  | [], t, _ => ([], if t = Term.eof then none else some CopyErr.readErr)
  | c :: cs, t, w =>
      if c.isEmpty then copyData cs t w
      else
        match writeRetry c w with
        | (d, w1, true) =>
            match copyData cs t w1 with
            | (d2, e) => (d ++ d2, e)
        | (d, _, false) => (d, some CopyErr.writeErr)

/-- The generic direction of Go proxyData (src/httpProxy.go:119-135), used for
the client-to-upstream passthrough with its 4096-byte buffer: each chunk is
written once with the written count discarded; a write error stops the loop;
end-of-stream and read errors both just return (proxyData reports neither).
Returns the bytes delivered to the destination. -/
def proxyDataLoop : List (List Nat) → List WOut → List Nat
  | [], _ => []
  | c :: cs, w =>
      if c.isEmpty then proxyDataLoop cs w
      else
        match writeOnce c w with
        | (d, w1, true) => d ++ proxyDataLoop cs w1
        | (d, _, false) => d

/-- The header scan of Go proxyResponseWithHeaderInjection
(src/httpProxy.go:171-186): read one byte at a time, appending to headerBuf,
until the accumulated bytes contain CRLFCRLF; `none` when the stream ends
first (any read error, io.EOF included, aborts the scan).  Returns the
accumulated buffer and the unread remainder of the stream. -/
def scanHeaders : List Nat → List Nat → Option (List Nat × List Nat)
  | [], _ => none
  | b :: rest, acc =>
      if containsSeq crlfcrlf (acc ++ [b]) then some (acc ++ [b], rest)
      else scanHeaders rest (acc ++ [b])

/-- A partition of a byte list into successive nonempty Read chunks, driven by
a list of size hints (hint `s` yields a chunk of `s + 1` bytes, capped by the
bytes available; an exhausted hint list yields one final full chunk). -/
def chunkify : List Nat → List Nat → List (List Nat)
  | _, [] => []
  | [], l => [l]
  | s :: ss, b :: l =>
      ((b :: l).take (s + 1)) :: chunkify ss ((b :: l).drop (s + 1))

/-- The error results of Go proxyResponseWithHeaderInjection, in source
order: the header-scan read error, the malformed-headers error, the two
client write errors, and a wrapped copyData error. -/
inductive RelayErr where
  | headerRead
  | malformed
  | writeHeader
  | writeLeftover
  | copy (e : CopyErr)
  deriving DecidableEq, Repr

/-- The header rewrite of src/httpProxy.go:196-201: split the header section
on CRLF, append the fixed line "Foo: Bar", rejoin with CRLF and re-append the
terminator. -/
def injectHeader (headerSection : List Nat) : List Nat :=
  joinCRLF (splitCRLF headerSection ++ [fooBar]) ++ crlfcrlf

/-- Go proxyResponseWithHeaderInjection (src/httpProxy.go:169-230): scan to
the header terminator, split the accumulated bytes at its first occurrence,
write the rewritten header block, write the leftover if nonempty (no Write
call happens for an empty leftover), then stream the remaining bytes through
copyData, whose chunking is driven by `sizes` and whose error is the
result of the function.  Returns the bytes written to the client and the error. -/
def proxyResponseWithHeaderInjection (stream sizes : List Nat) (w : List WOut)
    (t : Term) : List Nat × Option RelayErr :=
  match scanHeaders stream [] with
  | none => ([], some RelayErr.headerRead)
  | some (rawHeaders, rest) =>
      match splitFirst crlfcrlf rawHeaders with
      | none => ([], some RelayErr.malformed)
      | some (headerSection, leftover) =>
          match writeOnce (injectHeader headerSection) w with
          | (d1, _, false) => (d1, some RelayErr.writeHeader)
          | (d1, w1, true) =>
              match (if leftover.isEmpty then (([] : List Nat), w1, true)
                     else writeOnce leftover w1) with
              | (d2, _, false) => (d1 ++ d2, some RelayErr.writeLeftover)
              | (d2, w2, true) =>
                  match copyData (chunkify sizes rest) t w2 with
                  | (body, e) => (d1 ++ d2 ++ body, e.map RelayErr.copy)

/-- Observable session events: the single upstream dial, one event per cycle
recording the response-relay error result and the keep-alive decision, and
the final (deferred) close of both connections. -/
inductive Ev where
  | dial
  | cycle (relayErr : Option RelayErr) (keepAlive : Bool)
  | closeConns
  deriving DecidableEq, Repr

/-- Head and tail of the per-cycle upstream response streams. -/
def headTailD : List (List Nat) → List Nat × List (List Nat)
  | [] => ([], [])
  | r :: rs => (r, rs)

/-- The per-session loop of Go handleProxyConnection (src/httpProxy.go:47-106).
`reqs` are the successive client Read results (the 4096-byte buffer only
bounds their size); after they are exhausted the client read yields
end-of-stream, which, like any client read error or an empty read, ends the
session.  `resps` are the upstream bytes available to the response relay of
each cycle.  The upstream forward write is modelled as succeeding, the
client-to-upstream passthrough task has no effect on the session decision,
and the per-cycle join barrier is modelled as both relay tasks completing
with the bytes of that cycle.  Each cycle records the relay error
result -- which the Go code discards, so it never reaches this loop -- and
the keep-alive decision that alone determines continuation.  A `none` from
parseHTTPHeaders is the Go panic: no further cycle runs. -/
def sessionLoop : List (List Nat) → List (List Nat) → List Ev
  | [], _ => []
  | req :: reqs, resps =>
      if req.isEmpty then []
      else
        match parseHTTPHeaders req with
        | none => []
        | some (version, connection) =>
            let resp := (headTailD resps).1
            let rest := (headTailD resps).2
            let e := (proxyResponseWithHeaderInjection resp [] [] Term.eof).2
            if shouldKeepAlive version connection then
              Ev.cycle e true :: sessionLoop reqs rest
            else [Ev.cycle e false]

/-- Go handleProxyConnection (src/httpProxy.go:35-107) after a successful
dial: the upstream is dialed exactly once, before the loop, and both
connections are closed (deferred) exactly once, when the session ends. -/
def handleProxyConnection (reqs resps : List (List Nat)) : List Ev :=
  Ev.dial :: sessionLoop reqs resps ++ [Ev.closeConns]

/-- The response-relay error result for one cycle whose upstream delivers
`resp` and then end-of-stream, with a cooperative client. -/
def relayErrOf (resp : List Nat) : Option RelayErr :=
  (proxyResponseWithHeaderInjection resp [] [] Term.eof).2

/-- A request whose only Connection line is "Connection:close", with no space
after the colon. -/
def reqConnNoSpace : List Nat := bytesOf "GET / HTTP/1.1\r\nConnection:close\r\n\r\n"

/-- An HTTP/1.1 request without a Connection header (keep-alive by default). -/
def reqKA : List Nat := bytesOf "GET / HTTP/1.1\r\n\r\n"

/-- An HTTP/1.1 request carrying "Connection: close". -/
def reqCL : List Nat := bytesOf "GET / HTTP/1.1\r\nConnection: close\r\n\r\n"

/-- An upstream response cut off before any CRLFCRLF terminator. -/
def respBad : List Nat := bytesOf "HTTP/1.1 200 OK"

/-- A complete, body-less upstream response header block. -/
def resp200 : List Nat := bytesOf "HTTP/1.1 200 OK\r\n\r\n"

/-- The header block of the header-injection example in the spec. -/
def hdrA : List Nat := bytesOf "A: 1\r\nB: 2\r\n\r\n"

/-- The rewritten header block the client must receive for `hdrA`. -/
def outA : List Nat := bytesOf "A: 1\r\nB: 2\r\nFoo: Bar\r\n\r\n"

theorem startsWith_append {p l : List Nat} (l2 : List Nat)
    (h : startsWith p l = true) : startsWith p (l ++ l2) = true := by
  induction p generalizing l with
  | nil => rfl
  | cons a ps ih =>
      cases l with
      | nil => simp [startsWith] at h
      | cons b bs =>
          simp only [startsWith, Bool.and_eq_true, beq_iff_eq] at h
          simp only [List.cons_append, startsWith, Bool.and_eq_true, beq_iff_eq]
          exact ⟨h.1, ih h.2⟩

theorem startsWith_drop {p l : List Nat} (h : startsWith p l = true) :
    l = p ++ l.drop p.length := by
  induction p generalizing l with
  | nil => simp
  | cons a ps ih =>
      cases l with
      | nil => simp [startsWith] at h
      | cons b bs =>
          simp only [startsWith, Bool.and_eq_true, beq_iff_eq] at h
          simp only [List.length_cons, List.drop_succ_cons, List.cons_append]
          rw [h.1]
          exact congrArg (List.cons b) (ih h.2)

theorem startsWith_self (p t : List Nat) : startsWith p (p ++ t) = true := by
  induction p with
  | nil => rfl
  | cons a ps ih => simp [startsWith, ih]

theorem startsWith_snoc {p : List Nat} : ∀ {m : List Nat} {b : Nat},
    startsWith p m = false → startsWith p (m ++ [b]) = true → p = m ++ [b] := by
  induction p with
  | nil => intro m b h1 _; simp [startsWith] at h1
  | cons a ps ih =>
      intro m b h1 h2
      cases m with
      | nil =>
          cases ps with
          | nil =>
              simp only [List.nil_append, startsWith, Bool.and_eq_true,
                beq_iff_eq] at h2
              simp [h2.1]
          | cons c cs =>
              simp only [List.nil_append, startsWith, Bool.and_eq_true] at h2
              exact absurd h2.2 (by simp [startsWith])
      | cons x m' =>
          simp only [List.cons_append, startsWith, Bool.and_eq_true,
            beq_iff_eq] at h1 h2
          have hax : a = x := h2.1
          have h1' : startsWith ps m' = false := by
            cases hsw : startsWith ps m' with
            | false => rfl
            | true => exact absurd h1 (by simp [hax, hsw])
          rw [hax, ih h1' h2.2]
          rfl

theorem containsSeq_nil_pat (y : List Nat) : containsSeq [] y = true := by
  cases y <;> simp [containsSeq, startsWith]

theorem containsSeq_append {p x : List Nat} (y : List Nat)
    (h : containsSeq p x = true) : containsSeq p (x ++ y) = true := by
  induction x with
  | nil =>
      have : p = [] := by simpa [containsSeq, List.isEmpty_iff] using h
      subst this
      exact containsSeq_nil_pat y
  | cons b bs ih =>
      simp only [containsSeq, Bool.or_eq_true] at h
      simp only [List.cons_append, containsSeq, Bool.or_eq_true]
      rcases h with h | h
      · exact Or.inl (by simpa [List.cons_append] using startsWith_append y h)
      · exact Or.inr (ih h)

theorem containsSeq_left_false {p x y : List Nat}
    (h : containsSeq p (x ++ y) = false) : containsSeq p x = false := by
  cases hc : containsSeq p x with
  | false => rfl
  | true => rw [containsSeq_append y hc] at h; exact absurd h (by simp)



theorem scanHeaders_none : ∀ (stream acc : List Nat),
    containsSeq crlfcrlf (acc ++ stream) = false → scanHeaders stream acc = none := by
  intro stream
  induction stream with
  | nil => intro acc _; rfl
  | cons b rest ih =>
      intro acc h
      have hax : containsSeq crlfcrlf ((acc ++ [b]) ++ rest) = false := by
        rwa [List.append_assoc, List.singleton_append]
      have hac : containsSeq crlfcrlf (acc ++ [b]) = false :=
        containsSeq_left_false hax
      simp only [scanHeaders, hac, Bool.false_eq_true, if_false]
      exact ih (acc ++ [b]) hax

theorem splitFirst_snoc {p : List Nat} : ∀ (l : List Nat) (b : Nat),
    containsSeq p l = false → containsSeq p (l ++ [b]) = true →
    ∃ pre, l ++ [b] = pre ++ p ∧ splitFirst p (l ++ [b]) = some (pre, []) := by
  intro l
  induction l with
  | nil =>
      intro b h1 h2
      have hp : ¬ p.isEmpty = true := by simpa [containsSeq] using h1
      have hsw : startsWith p [b] = true := by
        simpa [containsSeq, hp] using h2
      have hpb : p = [b] := by
        cases p with
        | nil => simp at hp
        | cons a ps =>
            cases ps with
            | nil =>
                simp only [startsWith, Bool.and_eq_true, beq_iff_eq] at hsw
                simp [hsw.1]
            | cons c cs =>
                simp only [startsWith, Bool.and_eq_true] at hsw
                exact absurd hsw.2 (by simp [startsWith])
      refine ⟨[], by simp [hpb], ?_⟩
      simp [splitFirst, hpb, startsWith]
  | cons a l' ih =>
      intro b h1 h2
      rw [show containsSeq p (a :: l') = (startsWith p (a :: l') || containsSeq p l')
          from rfl, Bool.or_eq_false_iff] at h1
      cases hsw : startsWith p ((a :: l') ++ [b]) with
      | true =>
          have hpfull : p = (a :: l') ++ [b] := startsWith_snoc h1.1 hsw
          refine ⟨[], by simp [hpfull], ?_⟩
          have hlen : ((a :: l') ++ [b]).length ≤ p.length := by
            rw [hpfull]
          have hunf : splitFirst p ((a :: l') ++ [b])
              = (if startsWith p ((a :: l') ++ [b]) then
                   some ([], ((a :: l') ++ [b]).drop p.length)
                 else
                   match splitFirst p (l' ++ [b]) with
                   | some (pre, post) => some (a :: pre, post)
                   | none => none) := rfl
          rw [hunf, if_pos hsw, List.drop_of_length_le hlen]
      | false =>
          have h2' : containsSeq p (l' ++ [b]) = true := by
            have : containsSeq p ((a :: l') ++ [b])
                = (startsWith p ((a :: l') ++ [b]) || containsSeq p (l' ++ [b])) := rfl
            rw [this, hsw, Bool.false_or] at h2
            exact h2
          obtain ⟨pre, hpre, hsp⟩ := ih b h1.2 h2'
          refine ⟨a :: pre, by simp [hpre], ?_⟩
          have : splitFirst p ((a :: l') ++ [b])
              = (if startsWith p ((a :: l') ++ [b]) then
                   some ([], ((a :: l') ++ [b]).drop p.length)
                 else
                   match splitFirst p (l' ++ [b]) with
                   | some (pre, post) => some (a :: pre, post)
                   | none => none) := rfl
          rw [this, hsw, hsp]
          simp

theorem scanHeaders_exit : ∀ (stream acc buf rest : List Nat),
    containsSeq crlfcrlf acc = false →
    scanHeaders stream acc = some (buf, rest) →
    ∃ pre, buf = pre ++ crlfcrlf ∧ splitFirst crlfcrlf buf = some (pre, []) := by
  intro stream
  induction stream with
  | nil =>
      intro acc buf rest _ hs
      exact absurd hs (by simp [scanHeaders])
  | cons b s2 ih =>
      intro acc buf rest h hs
      cases hc : containsSeq crlfcrlf (acc ++ [b]) with
      | true =>
          simp only [scanHeaders, hc, if_true] at hs
          obtain ⟨hbuf, _⟩ := Prod.mk.injEq .. ▸ Option.some.inj hs
          exact hbuf ▸ splitFirst_snoc acc b h hc
      | false =>
          simp only [scanHeaders, hc, Bool.false_eq_true, if_false] at hs
          exact ih (acc ++ [b]) buf rest hc hs



theorem writeRetry_flush : ∀ (w : List WOut) (data d : List Nat) (w1 : List WOut),
    writeRetry data w = (d, w1, true) → d = data := by
  intro w
  induction w with
  | nil =>
      intro data d w1 h
      simp only [writeRetry, Prod.mk.injEq] at h
      exact h.1.symm
  | cons o rest ih =>
      intro data d w1 h
      cases o with
      | err => simp [writeRetry] at h
      | ok k =>
          by_cases hk : data.length ≤ k
          · simp only [writeRetry, if_pos hk, Prod.mk.injEq] at h
            exact h.1.symm
          · simp only [writeRetry, if_neg hk] at h
            rcases hw : writeRetry (data.drop k) rest with ⟨d0, w0, s0⟩
            rw [hw] at h
            simp only [Prod.mk.injEq] at h
            obtain ⟨hd, _, hs⟩ := h
            rw [← hd, ih (data.drop k) d0 w0 (by rw [hw, hs])]
            exact List.take_append_drop k data

theorem writeRetry_err : ∀ (w : List WOut) (data d : List Nat) (w1 : List WOut),
    writeRetry data w = (d, w1, false) → WOut.err ∈ w := by
  intro w
  induction w with
  | nil =>
      intro data d w1 h
      simp [writeRetry] at h
  | cons o rest ih =>
      intro data d w1 h
      cases o with
      | err => exact List.mem_cons_self _ _
      | ok k =>
          by_cases hk : data.length ≤ k
          · simp [writeRetry, if_pos hk] at h
          · simp only [writeRetry, if_neg hk] at h
            rcases hw : writeRetry (data.drop k) rest with ⟨d0, w0, s0⟩
            rw [hw] at h
            simp only [Prod.mk.injEq] at h
            obtain ⟨_, _, hs⟩ := h
            exact List.mem_cons_of_mem _ (ih (data.drop k) d0 w0 (by rw [hw, hs]))

theorem copyData_nil_writer : ∀ (cs : List (List Nat)) (t : Term),
    copyData cs t [] = (cs.flatten, if t = Term.eof then none else some CopyErr.readErr) := by
  intro cs
  induction cs with
  | nil => intro t; rfl
  | cons c cs ih =>
      intro t
      cases hc : c.isEmpty with
      | true =>
          have hcn : c = [] := by simpa using hc
          subst hcn
          simp [copyData, ih]
      | false =>
          simp [copyData, writeRetry, hc, ih]

theorem chunkify_join : ∀ (ss l : List Nat), (chunkify ss l).flatten = l := by
  intro ss
  induction ss with
  | nil => intro l; cases l <;> simp [chunkify]
  | cons s ss ih =>
      intro l
      cases l with
      | nil => simp [chunkify]
      | cons b l2 =>
          simp only [chunkify, List.flatten_cons, ih]
          exact List.take_append_drop _ _



theorem relay_eval {stream raw headerSection leftover rest : List Nat}
    (sizes : List Nat) (t : Term)
    (h1 : scanHeaders stream [] = some (raw, rest))
    (h2 : splitFirst crlfcrlf raw = some (headerSection, leftover)) :
    proxyResponseWithHeaderInjection stream sizes [] t =
      (injectHeader headerSection ++ leftover ++ rest,
       if t = Term.eof then none else some (RelayErr.copy CopyErr.readErr)) := by
  unfold proxyResponseWithHeaderInjection
  simp only [h1, h2]
  rw [show writeOnce (injectHeader headerSection) [] =
      (injectHeader headerSection, [], true) from rfl]
  cases hlo : leftover.isEmpty with
  | true =>
      have : leftover = [] := by simpa using hlo
      subst this
      simp only [List.isEmpty_nil, if_true, copyData_nil_writer, chunkify_join]
      cases t <;> simp
  | false =>
      simp only [hlo, Bool.false_eq_true, if_false,
        show writeOnce leftover [] = (leftover, [], true) from rfl,
        copyData_nil_writer, chunkify_join]
      cases t <;> simp

theorem relay_not_malformed (stream sizes : List Nat) (w : List WOut) (t : Term) :
    (proxyResponseWithHeaderInjection stream sizes w t).2 ≠ some RelayErr.malformed := by
  unfold proxyResponseWithHeaderInjection
  cases hscan : scanHeaders stream [] with
  | none => simp
  | some pr =>
      rcases pr with ⟨raw, rest⟩
      obtain ⟨pre, _, hsp⟩ := scanHeaders_exit stream [] raw rest rfl hscan
      simp only [hsp]
      rcases hw1 : writeOnce (injectHeader pre) w with ⟨d1, w1, s1⟩
      cases s1 with
      | false => simp [hw1]
      | true =>
          simp only [hw1, List.isEmpty_nil, if_true]
          rcases hcd : copyData (chunkify sizes rest) t w1 with ⟨body, e⟩
          cases e with
          | none => simp [hcd]
          | some ce => cases ce <;> simp [hcd]



theorem shouldKeepAlive_eq (v c : List Nat) :
    shouldKeepAlive v c =
      (goTrimSpace v == bytesOf "1.0"
          && goToLower (goTrimSpace c) == bytesOf "keep-alive"
       || goTrimSpace v == bytesOf "1.1"
          && !(goToLower (goTrimSpace c) == bytesOf "close")) := by
  unfold shouldKeepAlive
  cases h1 : (goTrimSpace v == bytesOf "1.0"
      && goToLower (goTrimSpace c) == bytesOf "keep-alive") <;>
    cases h2 : (goTrimSpace v == bytesOf "1.1"
      && !(goToLower (goTrimSpace c) == bytesOf "close")) <;>
    simp [h1, h2]

theorem shouldKeepAlive_continue {v c : List Nat}
    (hv : goTrimSpace v = bytesOf "1.1")
    (hc : goToLower (goTrimSpace c) ≠ bytesOf "close") :
    shouldKeepAlive v c = true := by
  rw [shouldKeepAlive_eq, hv]
  rw [show (bytesOf "1.1" == bytesOf "1.0") = false from rfl]
  rw [show (bytesOf "1.1" == bytesOf "1.1") = true from rfl]
  simp [hc]

theorem shouldKeepAlive_close {v c : List Nat}
    (hv : goTrimSpace v = bytesOf "1.1")
    (hc : goToLower (goTrimSpace c) = bytesOf "close") :
    shouldKeepAlive v c = false := by
  rw [shouldKeepAlive_eq, hv, hc]
  rfl

theorem keepAliveTable (version connHeader : List Nat) :
    shouldKeepAlive version connHeader = true ↔
      (goTrimSpace version = bytesOf "1.0" ∧
        goToLower (goTrimSpace connHeader) = bytesOf "keep-alive") ∨
      (goTrimSpace version = bytesOf "1.1" ∧
        goToLower (goTrimSpace connHeader) ≠ bytesOf "close") := by
  rw [shouldKeepAlive_eq]
  simp



theorem sessionLoop_cons_continue {req : List Nat} {reqs : List (List Nat)}
    {resp : List Nat} {resps : List (List Nat)} {v c : List Nat}
    (hne : req ≠ []) (hp : parseHTTPHeaders req = some (v, c))
    (hka : shouldKeepAlive v c = true) :
    sessionLoop (req :: reqs) (resp :: resps)
      = Ev.cycle (relayErrOf resp) true :: sessionLoop reqs resps := by
  have hemp : req.isEmpty = false := by simpa using hne
  simp only [sessionLoop, hemp, Bool.false_eq_true, if_false, hp, headTailD,
    hka, if_true, relayErrOf]

theorem sessionLoop_cons_stop {req : List Nat} {reqs : List (List Nat)}
    {resp : List Nat} {resps : List (List Nat)} {v c : List Nat}
    (hne : req ≠ []) (hp : parseHTTPHeaders req = some (v, c))
    (hka : shouldKeepAlive v c = false) :
    sessionLoop (req :: reqs) (resp :: resps) = [Ev.cycle (relayErrOf resp) false] := by
  have hemp : req.isEmpty = false := by simpa using hne
  simp only [sessionLoop, hemp, Bool.false_eq_true, if_false, hp, headTailD,
    hka, if_false, relayErrOf]

theorem proxyDataLoop_single (c : List Nat) (k : Nat) :
    proxyDataLoop [c] [WOut.ok k] = c.take k := by
  cases hc : c.isEmpty with
  | true =>
      have : c = [] := by simpa using hc
      subst this
      simp [proxyDataLoop]
  | false =>
      simp only [proxyDataLoop, hc, Bool.false_eq_true, if_false]
      rw [show writeOnce c [WOut.ok k] = (c.take k, [], true) from rfl]
      simp [proxyDataLoop]

/-- C1, counterexample: shouldKeepAlive trims the version string before
comparing it, so the input version " 1.1" -- which is neither "1.0" nor
"1.1" -- continues instead of terminating, refuting the decision table as
stated over all input strings. -/
theorem claim1_counterexample :
    shouldKeepAlive (bytesOf " 1.1") [] = true ∧
    bytesOf " 1.1" ≠ bytesOf "1.0" ∧ bytesOf " 1.1" ≠ bytesOf "1.1" :=
  ⟨by decide, by decide, by decide⟩

/-- C1, amended: the keep-alive decider matches the decision table of the
spec with the version compared after whitespace trimming: continue exactly
when the trimmed version is "1.0" with trimmed, lower-cased Connection value
"keep-alive", or the trimmed version is "1.1" with that value anything but
"close"; every other (trimmed) version terminates. -/
theorem claim1_decision_table (version connHeader : List Nat) :
    shouldKeepAlive version connHeader = true ↔
      (goTrimSpace version = bytesOf "1.0" ∧
        goToLower (goTrimSpace connHeader) = bytesOf "keep-alive") ∨
      (goTrimSpace version = bytesOf "1.1" ∧
        goToLower (goTrimSpace connHeader) ≠ bytesOf "close") :=
  keepAliveTable version connHeader

/-- C2: for every upstream response starting with the header block
"A: 1\r\nB: 2\r\n\r\n" followed by any body, the response relay writes to
the client exactly "A: 1\r\nB: 2\r\nFoo: Bar\r\n\r\n" followed by the body:
the fixed line is inserted before the terminating blank line, no other header
byte changes, and every body byte is forwarded unchanged and in order,
whatever chunking the remaining reads use. -/
theorem claim2_response_rewrite (body sizes : List Nat) :
    proxyResponseWithHeaderInjection (hdrA ++ body) sizes [] Term.eof
      = (outA ++ body, none) := by
  rw [relay_eval sizes Term.eof
    (show scanHeaders (hdrA ++ body) [] = some (hdrA, body) from rfl)
    (show splitFirst crlfcrlf hdrA = some (bytesOf "A: 1\r\nB: 2", []) from rfl)]
  rw [show injectHeader (bytesOf "A: 1\r\nB: 2") = outA from rfl]
  simp

/-- C3, counterexample: a session in which the response relay of the first cycle reports
a header-read error (upstream closed without ever sending CRLFCRLF) still
proceeds to the keep-alive decision and runs a second cycle, refuting the
claim that a relay error ends the session without starting another cycle. -/
theorem claim3_counterexample :
    sessionLoop [reqKA, reqCL] [respBad, resp200]
      = [Ev.cycle (some RelayErr.headerRead) true, Ev.cycle none false] := by decide

/-- C3, amended: an error reported by the upstream-to-client response relay
is discarded by proxyData and never reaches the session loop: the loop
proceeds to the keep-alive decision regardless and starts another cycle
whenever that decision says continue.  Only client-read failures, empty
reads, upstream-forward write failures, or a negative keep-alive decision
end the session. -/
theorem claim3_relay_error_not_fatal :
    ∀ (req : List Nat) (reqs : List (List Nat)) (resp : List Nat)
      (resps : List (List Nat)) (v c : List Nat) (e : RelayErr),
      req ≠ [] → parseHTTPHeaders req = some (v, c) →
      shouldKeepAlive v c = true →
      (proxyResponseWithHeaderInjection resp [] [] Term.eof).2 = some e →
      sessionLoop (req :: reqs) (resp :: resps)
        = Ev.cycle (some e) true :: sessionLoop reqs resps := by
  intro req reqs resp resps v c e hne hp hka he
  rw [sessionLoop_cons_continue hne hp hka, relayErrOf, he]

/-- C3, witness: the amended theorem applied at a concrete one-request
session whose response relay fails. -/
theorem claim3_witness :
    sessionLoop [reqKA] [respBad]
      = Ev.cycle (some RelayErr.headerRead) true :: sessionLoop [] [] :=
  claim3_relay_error_not_fatal reqKA [] respBad [] (bytesOf "1.1") []
    RelayErr.headerRead (by decide) (by decide) (by decide) (by decide)

/-- C4: if the upstream stream ends (or a read error occurs) before CRLFCRLF
has ever appeared in the accumulated bytes, the response relay returns the
reported header-read error having written zero bytes to the client. -/
theorem claim4_no_partial_header (stream sizes : List Nat) (w : List WOut) (t : Term)
    (h : containsSeq crlfcrlf stream = false) :
    proxyResponseWithHeaderInjection stream sizes w t
      = ([], some RelayErr.headerRead) := by
  unfold proxyResponseWithHeaderInjection
  simp only [scanHeaders_none stream [] (by simpa using h)]

/-- C4, witness: the theorem applied at a concrete terminator-free stream. -/
theorem claim4_witness :
    proxyResponseWithHeaderInjection (bytesOf "HTTP/1.1 200") [] [] Term.eof
      = ([], some RelayErr.headerRead) :=
  claim4_no_partial_header (bytesOf "HTTP/1.1 200") [] [] Term.eof (by decide)

/-- C5: for every partitioning of a source byte sequence into read chunks
(including one byte per read), copyData delivers to the destination exactly
the source bytes, unchanged and in order, and returns success exactly when
the source ends with clean end-of-stream. -/
theorem claim5_rawcopy_roundtrip :
    (∀ (chunks : List (List Nat)) (t : Term),
      copyData chunks t [] =
        (chunks.flatten, if t = Term.eof then none else some CopyErr.readErr)) ∧
    (∀ (src sizes : List Nat) (t : Term),
      copyData (chunkify sizes src) t [] =
        (src, if t = Term.eof then none else some CopyErr.readErr)) :=
  ⟨copyData_nil_writer, fun src sizes t => by
    rw [copyData_nil_writer, chunkify_join]⟩

/-- C6, counterexample: the 4096-byte client-to-upstream passthrough loop of
proxyData does not retry a short write: a destination accepting one byte of
the two-byte chunk [1, 2] without error leaves the loop delivering [1] and
dropping the rest, while copyData with the same writer flushes the full
chunk, refuting the claim that both raw-copy directions retry. -/
theorem claim6_counterexample :
    proxyDataLoop [[1, 2]] [WOut.ok 1] = [1] ∧
    proxyDataLoop [[1, 2]] [WOut.ok 1] ≠ [1, 2] ∧
    copyData [[1, 2]] Term.eof [WOut.ok 1] = ([1, 2], none) :=
  ⟨by decide, by decide, by decide⟩

/-- C6, amended: in the 32768-byte body-tail relay (copyData) a short write
is not an error: whenever the write loop reports success it has delivered
the whole chunk, and it reports failure only when the writer actually
returned a write error.  The 4096-byte client-to-upstream loop of proxyData,
by contrast, writes each chunk once, ignoring the accepted count. -/
theorem claim6_short_write_retry :
    (∀ (w : List WOut) (data d : List Nat) (w1 : List WOut),
      writeRetry data w = (d, w1, true) → d = data) ∧
    (∀ (w : List WOut) (data d : List Nat) (w1 : List WOut),
      writeRetry data w = (d, w1, false) → WOut.err ∈ w) ∧
    (∀ (c : List Nat) (k : Nat), proxyDataLoop [c] [WOut.ok k] = c.take k) :=
  ⟨writeRetry_flush, writeRetry_err, proxyDataLoop_single⟩

/-- C6, witness: the flush property of the amended theorem applied at a concrete
short-writing destination. -/
theorem claim6_witness :
    writeRetry [1, 2] [WOut.ok 1] = ([1, 2], [], true) ∧ ([1, 2] : List Nat) = [1, 2] :=
  ⟨by decide, claim6_short_write_retry.1 [WOut.ok 1] [1, 2] [1, 2] [] (by decide)⟩



/-- C7: a session whose client sends three nonempty HTTP/1.1 requests
without "Connection: close" and then a fourth with it performs exactly four
read-forward-relay cycles over the single upstream connection dialed at
session start, continues after each of the first three, and terminates,
closing both connections, after the fourth. -/
theorem claim7_four_cycles :
    ∀ r1 r2 r3 r4 s1 s2 s3 s4 v1 c1 v2 c2 v3 c3 v4 c4 : List Nat,
      r1 ≠ [] → r2 ≠ [] → r3 ≠ [] → r4 ≠ [] →
      parseHTTPHeaders r1 = some (v1, c1) → goTrimSpace v1 = bytesOf "1.1" →
      goToLower (goTrimSpace c1) ≠ bytesOf "close" →
      parseHTTPHeaders r2 = some (v2, c2) → goTrimSpace v2 = bytesOf "1.1" →
      goToLower (goTrimSpace c2) ≠ bytesOf "close" →
      parseHTTPHeaders r3 = some (v3, c3) → goTrimSpace v3 = bytesOf "1.1" →
      goToLower (goTrimSpace c3) ≠ bytesOf "close" →
      parseHTTPHeaders r4 = some (v4, c4) → goTrimSpace v4 = bytesOf "1.1" →
      goToLower (goTrimSpace c4) = bytesOf "close" →
      handleProxyConnection [r1, r2, r3, r4] [s1, s2, s3, s4] =
        [Ev.dial,
         Ev.cycle (relayErrOf s1) true, Ev.cycle (relayErrOf s2) true,
         Ev.cycle (relayErrOf s3) true, Ev.cycle (relayErrOf s4) false,
         Ev.closeConns] := by
  intro r1 r2 r3 r4 s1 s2 s3 s4 v1 c1 v2 c2 v3 c3 v4 c4
  intro hn1 hn2 hn3 hn4 hp1 hv1 hc1 hp2 hv2 hc2 hp3 hv3 hc3 hp4 hv4 hc4
  unfold handleProxyConnection
  rw [sessionLoop_cons_continue hn1 hp1 (shouldKeepAlive_continue hv1 hc1),
      sessionLoop_cons_continue hn2 hp2 (shouldKeepAlive_continue hv2 hc2),
      sessionLoop_cons_continue hn3 hp3 (shouldKeepAlive_continue hv3 hc3),
      sessionLoop_cons_stop hn4 hp4 (shouldKeepAlive_close hv4 hc4)]
  rfl

/-- C7, witness: the theorem applied at a concrete four-request session. -/
theorem claim7_witness :
    handleProxyConnection [reqKA, reqKA, reqKA, reqCL]
        [resp200, resp200, resp200, resp200] =
      [Ev.dial,
       Ev.cycle (relayErrOf resp200) true, Ev.cycle (relayErrOf resp200) true,
       Ev.cycle (relayErrOf resp200) true, Ev.cycle (relayErrOf resp200) false,
       Ev.closeConns] :=
  claim7_four_cycles reqKA reqKA reqKA reqCL resp200 resp200 resp200 resp200
    (bytesOf "1.1") [] (bytesOf "1.1") [] (bytesOf "1.1") []
    (bytesOf "1.1") (bytesOf "close")
    (by decide) (by decide) (by decide) (by decide)
    (by decide) (by decide) (by decide)
    (by decide) (by decide) (by decide)
    (by decide) (by decide) (by decide)
    (by decide) (by decide) (by decide)

/-- C8, counterexample: on a chunk that is exactly the line "Connection:",
parseHTTPHeaders does not return a pair: the Go slice line[12:] on the
11-byte line faults (slice bounds out of range), modelled as `none`. -/
theorem claim8_counterexample :
    parseHTTPHeaders (bytesOf "Connection:") = none := by decide

/-- C8, amended: parseHTTPHeaders returns a (version, connection) pair with
all indexing in bounds for every input whose CRLF lines that start with
"Connection:" are at least 12 bytes long; a chunk whose matching line is
exactly "Connection:" (11 bytes) makes the slice at length 12 fault, and no
pair is returned. -/
theorem claim8_parse_in_bounds :
    (∀ request : List Nat,
      (∀ line ∈ splitCRLF request, startsWith connMarker line = true →
          12 ≤ line.length) →
      (parseHTTPHeaders request).isSome = true) ∧
    parseHTTPHeaders (bytesOf "Connection:") = none := by
  constructor
  · intro request h
    unfold parseHTTPHeaders
    cases hf : (splitCRLF request).find? (fun line => startsWith connMarker line) with
    | none => rfl
    | some line =>
        have hp : startsWith connMarker line = true := List.find?_some hf
        have hm : line ∈ splitCRLF request := List.mem_of_find?_eq_some hf
        simp only [hf]
        simp [h line hm hp]
  · decide

/-- C8, witness: the amended theorem applied at a concrete request whose
Connection line is long enough. -/
theorem claim8_witness :
    (parseHTTPHeaders
      (bytesOf "GET / HTTP/1.1\r\nConnection: keep-alive\r\n\r\n")).isSome = true :=
  claim8_parse_in_bounds.1
    (bytesOf "GET / HTTP/1.1\r\nConnection: keep-alive\r\n\r\n") (by decide)

/-- C9: because the header scan reads one byte per iteration and stops the
first time CRLFCRLF appears, the accumulated buffer always ends exactly at
the first occurrence of the terminator, so splitting at that occurrence
always yields an empty leftover, and the "malformed HTTP response headers"
branch of the relay is unreachable. -/
theorem claim9_scan_exact_boundary :
    (∀ stream buf rest : List Nat, scanHeaders stream [] = some (buf, rest) →
      ∃ pre, buf = pre ++ crlfcrlf ∧ splitFirst crlfcrlf buf = some (pre, [])) ∧
    (∀ (stream sizes : List Nat) (w : List WOut) (t : Term),
      (proxyResponseWithHeaderInjection stream sizes w t).2
        ≠ some RelayErr.malformed) :=
  ⟨fun stream buf rest h => scanHeaders_exit stream [] buf rest rfl h,
   relay_not_malformed⟩

/-- C9, witness: the scan-exit property applied at a concrete stream. -/
theorem claim9_witness :
    ∃ pre, bytesOf "x\r\n\r\n" = pre ++ crlfcrlf ∧
      splitFirst crlfcrlf (bytesOf "x\r\n\r\n") = some (pre, []) :=
  claim9_scan_exact_boundary.1 (bytesOf "x\r\n\r\nBODY") (bytesOf "x\r\n\r\n")
    (bytesOf "BODY") (by decide)

/-- C10: a chunk whose first "Connection:"-prefixed line carries a value with
no space after the colon yields that value minus its first character (the
code matches the 11-byte marker but strips 12 bytes); in particular
"Connection:close" yields "lose", so an HTTP/1.1 request with that line is
kept alive rather than terminated. -/
theorem claim10_off_by_one :
    (∀ request value : List Nat,
      (splitCRLF request).find? (fun line => startsWith connMarker line)
          = some (connMarker ++ value) →
      value ≠ [] →
      ∃ v, parseHTTPHeaders request = some (v, goTrimSpace (value.drop 1))) ∧
    parseHTTPHeaders reqConnNoSpace = some (bytesOf "1.1", bytesOf "lose") ∧
    shouldKeepAlive (bytesOf "1.1") (bytesOf "lose") = true := by
  refine ⟨?_, by decide, by decide⟩
  intro request value hf hv
  unfold parseHTTPHeaders
  simp only [hf]
  have h12 : 12 ≤ (connMarker ++ value).length := by
    rw [List.length_append, show connMarker.length = 11 from rfl]
    have := List.length_pos.mpr hv
    omega
  rw [if_pos h12]
  rw [show ∀ v2 : List Nat, (connMarker ++ v2).drop 12 = v2.drop 1 from fun _ => rfl]
  exact ⟨_, rfl⟩

/-- C10, witness: the theorem applied at the "Connection:close" request. -/
theorem claim10_witness :
    ∃ v, parseHTTPHeaders reqConnNoSpace
      = some (v, goTrimSpace ((bytesOf "close").drop 1)) :=
  claim10_off_by_one.1 reqConnNoSpace (bytesOf "close") (by decide) (by decide)

end HttpProxy
